import Mathlib

/-!
# Token Vision macro (`dnd5e-about-time-token-vision.js`)

A shallow embedding of the Token Vision macro: the two preset catalogs built
with `namedfields`, the top-level selection guard, and the dialog's `close`
handler with its two About Time registrations and the immediate token update.

JavaScript values are a small inductive type, objects are association lists in
insertion order, the closures handed to `doIn` are defunctionalised into
`Callback` values holding what the closure captured, and every call into the
host (notifications, dialog, `doIn`, `console.log`, `token.update`,
`ChatMessage.create`) is recorded, in program order, as an `Effect`.
A `TypeError` raised by a property read on `undefined` aborts the handler.

Objects are mutable in JavaScript, so what a closure captures is a reference:
the copies made by `Object.assign({}, token.data)` are allocated in a heap and
captured as `Ref.object`, a token is captured by its identity, and a callback
that fires reads through those references in the `World` as it is then.

Field values are exact rationals (the macro only copies them). The numbers
produced by `parseInt` and the delay arithmetic are IEEE doubles: integers
rounded to 53 significant bits, or an infinity.
-/

namespace TokenVision

/-! ## Values and objects -/

/-- The JavaScript values the macro handles. -/
inductive JSVal where
  | undefined
  | null
  | bool (b : Bool)
  | num (q : ℚ)
  | str (s : String)
  deriving DecidableEq, Repr

/-- An object: its own properties in insertion order. -/
abbrev Obj := List (String × JSVal)

/-- Property read `o[k]` / `o.k`: a missing property reads as `undefined`. -/
def Obj.get (o : Obj) (k : String) : JSVal :=
  match o with
  | [] => JSVal.undefined
  | (k', v) :: rest => if k' = k then v else Obj.get rest k

/-- Property write `o[k] = v`: overwrite in place or append. -/
def Obj.set (o : Obj) (k : String) (v : JSVal) : Obj :=
  match o with
  | [] => [(k, v)]
  | (k', v') :: rest => if k' = k then (k', v) :: rest else (k', v') :: Obj.set rest k v

/-- The nullish coalescing operator `a ?? b`. -/
def nullish (a b : JSVal) : JSVal :=
  match a with
  | JSVal.null => b
  | JSVal.undefined => b
  | _ => a

/-- Array read `arr[index]` inside `forEach`: out of range reads `undefined`. -/
def argAt (arr : List JSVal) (index : Nat) : JSVal :=
  match arr[index]? with
  | some v => v
  | none => JSVal.undefined

/-- The helper `namedfields(...fields)(...arr)`: starting from `{}`, assigns
`obj[field] = arr[index]` for each field in order. -/
def namedfields (fields : List String) (arr : List JSVal) : Obj :=
  (fields.enum).foldl (fun obj p => Obj.set obj p.2 (argAt arr p.1)) []

/-! ## The two catalogs -/

/-- The constructor `VisionType = namedfields('name', 'dim', 'bright')`. -/
def VisionType (arr : List JSVal) : Obj :=
  namedfields ["name", "dim", "bright"] arr

/-- The array `visions`: three literal entries followed by the darkvision
entries generated from `[...Array(6).keys()].map(x => (x+1)*30)`. -/
def visions : List Obj :=
  [ VisionType [JSVal.str "Leave Unchanged", JSVal.null, JSVal.null],
    VisionType [JSVal.str "Self", JSVal.num 5, JSVal.num 0],
    VisionType [JSVal.str "Devil's Sight", JSVal.num 0, JSVal.num 120] ]
  ++ (((List.range 6).map (fun (x : Nat) => (x + 1) * 30)).map (fun (n : Nat) =>
        VisionType [JSVal.str ("Darkvision (" ++ toString n ++ " feet)"),
                    JSVal.num (n : ℚ), JSVal.num 0]))

/-- The constructor
`LightSource = namedfields('name', 'dim', 'bright', 'angle', 'lockRotation')`. -/
def LightSource (arr : List JSVal) : Obj :=
  namedfields ["name", "dim", "bright", "angle", "lockRotation"] arr

/-- The literal `52.5`, written as the reduced fraction `105 / 2`. -/
def bullseyeAngle : ℚ := ⟨105, 2, by decide, by decide⟩

/-- The array `lightSources`. -/
def lightSources : List Obj :=
  [ LightSource [JSVal.str "Leave Unchanged", JSVal.null, JSVal.null, JSVal.null, JSVal.null],
    LightSource [JSVal.str "None", JSVal.num 0, JSVal.num 0, JSVal.num 360, JSVal.null],
    LightSource [JSVal.str "Candle", JSVal.num 10, JSVal.num 5, JSVal.num 360, JSVal.null],
    LightSource [JSVal.str "Torch / Light Cantrip", JSVal.num 40, JSVal.num 20, JSVal.num 360,
      JSVal.null],
    LightSource [JSVal.str "Lamp", JSVal.num 45, JSVal.num 15, JSVal.num 360, JSVal.null],
    LightSource [JSVal.str "Hooded Lantern", JSVal.num 60, JSVal.num 30, JSVal.num 360,
      JSVal.null],
    LightSource [JSVal.str "Hooded Lantern (Dim)", JSVal.num 5, JSVal.num 0, JSVal.num 360,
      JSVal.null],
    LightSource [JSVal.str "Bullseye Lantern", JSVal.num 120, JSVal.num 60,
      JSVal.num bullseyeAngle, JSVal.bool false] ]

/-! ## Numbers: `parseInt` and the delay arithmetic -/

/-- The numbers `parseInt` can return and the delay arithmetic can produce,
apart from `NaN`: a double holding an integer, or an infinity. -/
inductive JSNum where
  | fin (n : Int)
  | posInf
  | negInf
  deriving DecidableEq, Repr

/-- Rounding of a natural number to the nearest double, ties to the even
mantissa: below `2^53` every integer is a double; above, the doubles are the
multiples of `2^e`, where `e` is the number of binary digits of `n` beyond
the first 53. -/
def roundToDouble (n : Nat) : Nat :=
  if n < 2 ^ 53 then n
  else
    let e := (Nat.toDigits 2 n).length - 53
    let q := n / 2 ^ e
    let r := n % 2 ^ e
    if 2 ^ e < 2 * r ∨ (2 * r = 2 ^ e ∧ q % 2 = 1) then (q + 1) * 2 ^ e else q * 2 ^ e

/-- The double nearest to the integer of sign `neg` and magnitude `n`; a
magnitude that rounds to `2^1024 = (2^256)^4` or more overflows to an
infinity. -/
def toNumber (neg : Bool) (n : Nat) : JSNum :=
  let m := roundToDouble n
  if (2 ^ 256) ^ 4 ≤ m then (if neg then JSNum.negInf else JSNum.posInf)
  else JSNum.fin (if neg then -(m : Int) else (m : Int))

/-- The comparison `x > 0`. -/
def JSNum.isPositive : JSNum → Bool
  | JSNum.fin n => decide (0 < n)
  | JSNum.posInf => true
  | JSNum.negInf => false

/-- The product `3 * x`: the exact product rounded to a double. -/
def JSNum.times3 : JSNum → JSNum
  | JSNum.fin n => toNumber (decide (n < 0)) (3 * n.natAbs)
  | JSNum.posInf => JSNum.posInf
  | JSNum.negInf => JSNum.negInf

/-- The expression `Math.floor(x / 4)` on an integer double `x`: dividing a
double by 4 only lowers its exponent and so is exact, and so is the floor.
Integer division by the positive 4 rounds down (`floorQuarter_eq_floor`). -/
def JSNum.floorQuarter : JSNum → JSNum
  | JSNum.fin m => JSNum.fin (m / 4)
  | JSNum.posInf => JSNum.posInf
  | JSNum.negInf => JSNum.negInf

/-- The delay `Math.floor(3 * duration / 4)`. -/
def warnDelay (duration : JSNum) : JSNum :=
  JSNum.floorQuarter (JSNum.times3 duration)

/-- White space skipped by `parseInt` before the number. -/
def isJSWhiteSpace (c : Char) : Bool :=
  c.val ∈ [0x9, 0xA, 0xB, 0xC, 0xD, 0x20, 0xA0, 0x1680, 0x2028, 0x2029, 0x202F, 0x205F,
    0x3000, 0xFEFF] || (0x2000 ≤ c.val && c.val ≤ 0x200A)

/-- The value of `c` as a digit in `radix`, if it is one. -/
def digitValue (radix : Nat) (c : Char) : Option Nat :=
  let v : Nat :=
    if '0' ≤ c ∧ c ≤ '9' then c.toNat - '0'.toNat
    else if 'a' ≤ c ∧ c ≤ 'z' then c.toNat - 'a'.toNat + 10
    else if 'A' ≤ c ∧ c ≤ 'Z' then c.toNat - 'A'.toNat + 10
    else radix
  if v < radix then some v else none

/-- Reads the longest prefix of digits, accumulating its value. The result is
`none` when no digit was read. -/
def readDigits (radix : Nat) : List Char → Option Nat → Option Nat
  | [], acc => acc
  | c :: cs, acc =>
    match digitValue radix c with
    | none => acc
    | some d => readDigits radix cs (some (acc.getD 0 * radix + d))

/-- The call `parseInt(s)` with no radix argument: `none` stands for `NaN`,
and the integer read is returned as the nearest double. -/
def parseInt (s : String) : Option JSNum :=
  let cs := s.toList.dropWhile isJSWhiteSpace
  let (neg, cs) :=
    match cs with
    | '-' :: rest => (true, rest)
    | '+' :: rest => (false, rest)
    | _ => (false, cs)
  let (radix, cs) :=
    match cs with
    | '0' :: 'x' :: rest => (16, rest)
    | '0' :: 'X' :: rest => (16, rest)
    | _ => (10, cs)
  match readDigits radix cs none with
  | none => none
  | some n => some (toNumber neg n)

/-- The expression `parseInt(value) || 0`: `NaN` and `0` are falsy. -/
def parseIntOrZero (s : String) : JSNum :=
  match parseInt s with
  | none => JSNum.fin 0
  | some n => if n = JSNum.fin 0 then JSNum.fin 0 else n

/-! ## Host objects and effects -/

/-- A token on the canvas: its identity and the current content of its `data`
object. -/
structure Token where
  id : Nat
  data : Obj
  deriving DecidableEq, Repr

/-- A reference to a mutable object: the `data` object of the token with the
given identity, or an object the script allocated, by allocation index. -/
inductive Ref where
  | tokenData (tokenId : Nat)
  | object (index : Nat)
  deriving DecidableEq, Repr

/-- What the script reads from the host when it runs. `aboutTime` is the
result of `game.modules.get("about-time")`: `none` for `undefined`, otherwise
the module's boolean `active` flag. `heap` holds the objects allocated so far. -/
structure Game where
  controlled : List Token
  aboutTime : Option Bool
  userId : JSVal
  speaker : JSVal
  heap : List Obj
  deriving DecidableEq, Repr

/-- The three form controls the `close` handler reads with `html.find`. -/
structure Html where
  visionType : String
  lightSource : String
  duration : String
  deriving DecidableEq, Repr

/-- The closures handed to `game.Gametime.doIn`, with what each captured: the
chat speaker, the identity of the loop's token and the reference `backup` to
the copy of `token.data`. -/
inductive Callback where
  | warn (speaker : JSVal) (backup : Ref)
  | restore (speaker : JSVal) (tokenId : Nat) (backup : Ref)
  deriving DecidableEq, Repr

/-- The calls into the host, in the order the script makes them. -/
inductive Effect where
  | notifyError (msg : String)
  | renderDialog
  | doIn (minutes : JSNum) (cb : Callback)
  | consoleLog (token : Token)
  | update (tokenId : Nat) (patch : Obj)
  | chatMessage (user : JSVal) (content : String) (speaker : JSVal)
  deriving DecidableEq, Repr

/-- What a run of a handler did: the host calls made, whether it ended by
throwing a `TypeError`, and the heap it left. -/
structure Outcome where
  effects : List Effect
  threw : Bool
  heap : List Obj
  deriving DecidableEq, Repr

/-- The state a callback finds when About Time fires it: every token with its
current data, the allocated objects, and `game.user._id`. -/
structure World where
  tokens : List Token
  heap : List Obj
  userId : JSVal
  deriving DecidableEq, Repr

/-- Array read `arr[i]` with a numeric index: `none` stands for `undefined`. -/
def arrayAt (arr : List Obj) (i : JSNum) : Option Obj :=
  match i with
  | JSNum.fin n => if 0 ≤ n then arr[n.toNat]? else none
  | _ => none

/-- Writing the own properties of `src` over `target`, key by key in order:
`target[key] = src[key]`. This is the content an object has after a flat
patch was merged into it. -/
def mergeObject (target src : Obj) : Obj :=
  src.foldl (fun o p => Obj.set o p.1 (Obj.get src p.1)) target

/-- The assignment `heap[target][k] = v` on the object at a heap index. -/
def writeProperty (heap : List Obj) (target : Nat) (k : String) (v : JSVal) : List Obj :=
  heap.set target (Obj.set (heap.getD target []) k v)

/-- The call `Object.assign(target, src)`, with `target` an allocated object
and `src` the content of the source: for each own key of `src`, in order,
`target[key] = src[key]` is carried out in the heap, and the value of the call
is the reference to `target`. -/
def objectAssign (heap : List Obj) (target : Nat) (src : Obj) : List Obj × Ref :=
  (src.foldl (fun h p => writeProperty h target p.1 (Obj.get src p.1)) heap, Ref.object target)

/-- The host's `token.update(patch)` as seen through later reads of
`token.data`: each key of the patch is written over the token's data. -/
def Token.applyUpdate (token : Token) (patch : Obj) : Token :=
  { token with data := mergeObject token.data patch }

/-- Dereferencing in a world: a token's data as it is now, or an allocated
object. -/
def World.read (w : World) : Ref → Obj
  | Ref.tokenData tokenId =>
    match w.tokens.find? (fun t => decide (t.id = tokenId)) with
    | some t => t.data
    | none => []
  | Ref.object index => w.heap.getD index []

/-- The world after the host has carried out `token.update(patch)` on the token
with the given identity. -/
def World.update (w : World) (tokenId : Nat) (patch : Obj) : World :=
  { w with tokens := w.tokens.map (fun t => if t.id = tokenId then t.applyUpdate patch else t) }

/-- The world after the host has carried out a sequence of token updates. -/
def World.applyUpdates (w : World) : List (Nat × Obj) → World
  | [] => w
  | (tokenId, patch) :: rest => World.applyUpdates (w.update tokenId patch) rest

/-- The object literal passed to `token.update` inside the restore handler. -/
def restorePatch (backup : Obj) : Obj :=
  [ ("vision", JSVal.bool true),
    ("dimSight", Obj.get backup "dimSight"),
    ("brightSight", Obj.get backup "brightSight"),
    ("dimLight", Obj.get backup "dimLight"),
    ("brightLight", Obj.get backup "brightLight"),
    ("lightAngle", Obj.get backup "lightAngle"),
    ("lockRotation", Obj.get backup "lockRotation") ]

/-- Running a registered callback when About Time fires it, in the world `w`
as it is then: `backup` is read through its reference at that moment. -/
def Callback.fire (w : World) : Callback → List Effect
  | Callback.warn speaker _ =>
    [Effect.chatMessage w.userId "The fire burns low..." speaker]
  | Callback.restore speaker tokenId backup =>
    [ Effect.chatMessage w.userId "The fire goes out, leaving you in darkness." speaker,
      Effect.update tokenId (restorePatch (w.read backup)) ]

/-- The expression `Object.assign({}, token.data)`: the literal `{}` allocates
a fresh empty object, the own properties of the token's data are assigned onto
it, and the value of the expression is the reference to that fresh object, not
to `token.data`. The copy is shallow; the fields the macro restores hold
numbers and booleans. -/
def copyTokenData (heap : List Obj) (token : Token) : List Obj × Ref :=
  objectAssign (heap ++ [[]]) heap.length token.data

/-- The `if (duration > 0)` block of the `close` handler for one token: the
host calls made and the heap afterwards. Each closure is applied to its own
`Object.assign({}, token.data)` and captures that reference as `backup`. -/
def schedule (g : Game) (token : Token) (duration : JSNum) : List Effect × List Obj :=
  if duration.isPositive then
    match g.aboutTime with
    | none =>
      ([Effect.notifyError
        "Please install and activate the About Time module to use the duration field!"],
       g.heap)
    | some active =>
      if active != true then
        ([Effect.notifyError "Please activate the About Time module to use the duration field!"],
         g.heap)
      else
        let copy1 := copyTokenData g.heap token
        let warn := Effect.doIn (warnDelay duration) (Callback.warn g.speaker copy1.2)
        let copy2 := copyTokenData copy1.1 token
        let restore := Effect.doIn duration (Callback.restore g.speaker token.id copy2.2)
        ([warn, restore], copy2.1)
  else ([], g.heap)

/-- The object literal passed to `token.update` at the end of the loop body. -/
def immediatePatch (vision light : Obj) (data : Obj) : Obj :=
  let dimSight := nullish (Obj.get vision "dim") (Obj.get data "dimSight")
  let brightSight := nullish (Obj.get vision "bright") (Obj.get data "brightSight")
  let dimLight := nullish (Obj.get light "dim") (Obj.get data "dimLight")
  let brightLight := nullish (Obj.get light "bright") (Obj.get data "brightLight")
  let lightAngle := nullish (Obj.get light "angle") (Obj.get data "lightAngle")
  let lockRotation := nullish (Obj.get light "lockRotation") (Obj.get data "lockRotation")
  [ ("vision", JSVal.bool true),
    ("dimSight", dimSight),
    ("brightSight", brightSight),
    ("dimLight", dimLight),
    ("brightLight", brightLight),
    ("lightAngle", lightAngle),
    ("lockRotation", lockRotation) ]

/-- The body of `for (let token of canvas.tokens.controlled)`: parse the three
inputs, run the scheduling block, look the presets up and update the token.
Reading `.dim` of a missing catalog entry throws before anything is updated. -/
def closeToken (g : Game) (html : Html) (token : Token) : Outcome :=
  let visionIndex := parseIntOrZero html.visionType
  let lightIndex := parseIntOrZero html.lightSource
  let duration := parseIntOrZero html.duration
  let scheduled := schedule g token duration
  match arrayAt visions visionIndex with
  | none => ⟨scheduled.1, true, scheduled.2⟩
  | some vision =>
    match arrayAt lightSources lightIndex with
    | none => ⟨scheduled.1, true, scheduled.2⟩
    | some light =>
      ⟨scheduled.1 ++ [Effect.consoleLog token,
        Effect.update token.id (immediatePatch vision light token.data)], false, scheduled.2⟩

/-- The `for` loop over the controlled tokens: a throw ends the loop. The heap
left by one iteration is the heap the next one starts from. -/
def closeLoop (g : Game) (html : Html) : List Token → Outcome
  | [] => ⟨[], false, g.heap⟩
  | token :: rest =>
    let r := closeToken g html token
    if r.threw then r
    else
      let r' := closeLoop { g with heap := r.heap } html rest
      ⟨r.effects ++ r'.effects, r'.threw, r'.heap⟩

/-- The dialog's `close` handler; `applyChanges` is true when the dialog was
closed through the "Apply Changes" button. -/
def close (g : Game) (applyChanges : Bool) (html : Html) : Outcome :=
  if applyChanges then closeLoop g html g.controlled else ⟨[], false, g.heap⟩

/-- The script's top level: the selection guard, then the dialog. -/
def script (g : Game) : List Effect :=
  if g.controlled.length = 0 then [Effect.notifyError "Please select a token"]
  else [Effect.renderDialog]

/-! ## Reading an outcome -/

/-- The `doIn` registrations among a list of effects. -/
def registrations : List Effect → List (JSNum × Callback)
  | [] => []
  | Effect.doIn m cb :: rest => (m, cb) :: registrations rest
  | _ :: rest => registrations rest

/-- The `token.update` calls among a list of effects. -/
def updates : List Effect → List (Nat × Obj)
  | [] => []
  | Effect.update i p :: rest => (i, p) :: updates rest
  | _ :: rest => updates rest

/-- The error notifications among a list of effects. -/
def errors : List Effect → List String
  | [] => []
  | Effect.notifyError m :: rest => m :: errors rest
  | _ :: rest => errors rest

/-- The message reported for a positive duration when About Time cannot be
used: one text when the module is missing, another when it is inactive. -/
def unavailableMessage (aboutTime : Option Bool) : String :=
  match aboutTime with
  | none => "Please install and activate the About Time module to use the duration field!"
  | some _ => "Please activate the About Time module to use the duration field!"

/-- The overlay rule for one field: `result` is the preset's value when that
value is not `null`, and the token's current value when it is `null`. -/
def Overlaid (preset current result : JSVal) : Prop :=
  (preset ≠ JSVal.null → result = preset) ∧ (preset = JSVal.null → result = current)

instance (preset current result : JSVal) : Decidable (Overlaid preset current result) := by
  unfold Overlaid
  infer_instance

/-- The six fields the macro writes besides `vision`. -/
def sixFields : List String :=
  ["dimSight", "brightSight", "dimLight", "brightLight", "lightAngle", "lockRotation"]

/-- The world once a confirmed dialog has run and the host has carried out the
updates it issued: the selected tokens with their new data, and the heap the
handler left. -/
def World.afterClose (g : Game) (html : Html) : World :=
  World.applyUpdates ⟨g.controlled, (close g true html).heap, g.userId⟩
    (updates (close g true html).effects)

/-- Whether the number `i` is an index into an array of length `len`. -/
def JSNum.inRange (i : JSNum) (len : Nat) : Bool :=
  match i with
  | JSNum.fin n => decide (0 ≤ n) && decide (n < (len : Int))
  | _ => false

/-- The two copies of its data that a scheduling iteration allocates for each
token, for the tokens of a list in order. -/
def copiesOf (tokens : List Token) : List Obj :=
  tokens.flatMap (fun t => [mergeObject [] t.data, mergeObject [] t.data])

/-- The registrations a confirmed dialog makes when every loop iteration
schedules: for each token in turn a warning and a restore callback, whose
captured copies sit at the next two heap indices from `base` on. -/
def expectedRegistrations (speaker : JSVal) (d : JSNum) : Nat → List Token →
    List (JSNum × Callback)
  | _, [] => []
  | base, token :: rest =>
    (warnDelay d, Callback.warn speaker (Ref.object base)) ::
    (d, Callback.restore speaker token.id (Ref.object (base + 1))) ::
    expectedRegistrations speaker d (base + 2) rest

/-! ## A concrete run -/

/-- A token with sight 5/0, no light, its rotation locked and vision off. -/
def demoToken : Token :=
  ⟨1, [ ("vision", JSVal.bool false), ("dimSight", JSVal.num 5), ("brightSight", JSVal.num 0),
        ("dimLight", JSVal.num 0), ("brightLight", JSVal.num 0), ("lightAngle", JSVal.num 360),
        ("lockRotation", JSVal.bool true) ]⟩

/-- One selected token, About Time installed and active. -/
def demoGame : Game := ⟨[demoToken], some true, JSVal.str "gm", JSVal.str "speaker", []⟩

/-- The dialog confirmed with "Darkvision (60 feet)", "Torch / Light Cantrip"
and a duration of 40 minutes. -/
def demoHtml : Html := ⟨"4", "3", "40"⟩

/-- The same selection with About Time installed but not active. -/
def inactiveGame : Game := ⟨[demoToken], some false, JSVal.str "gm", JSVal.str "speaker", []⟩

/-- The dialog confirmed with the duration field left empty. -/
def noDurationHtml : Html := ⟨"4", "3", ""⟩

/-- A game in which no token is selected. -/
def emptyGame : Game := ⟨[], some true, JSVal.str "gm", JSVal.str "speaker", []⟩

/-- The dialog confirmed with a vision index one past the end of the catalog. -/
def outOfRangeHtml : Html := ⟨"9", "0", ""⟩

/-- The dialog confirmed with a vision value that is not a number. -/
def unparseableHtml : Html := ⟨"torch", "3", ""⟩

/-- The dialog confirmed with "Darkvision (60 feet)" and "Bullseye Lantern". -/
def bullseyeHtml : Html := ⟨"4", "7", ""⟩

/-- The dialog confirmed with "Leave Unchanged" and the light source "None". -/
def noneHtml : Html := ⟨"0", "1", ""⟩

/-- The dialog confirmed with "Leave Unchanged" in both lists. -/
def unchangedHtml : Html := ⟨"0", "0", ""⟩

/-- A token carrying a lit torch. -/
def litToken : Token :=
  ⟨2, [ ("vision", JSVal.bool true), ("dimSight", JSVal.num 0), ("brightSight", JSVal.num 0),
        ("dimLight", JSVal.num 40), ("brightLight", JSVal.num 20), ("lightAngle", JSVal.num 360),
        ("lockRotation", JSVal.bool false) ]⟩

/-- The token `litToken` selected, About Time active. -/
def litGame : Game := ⟨[litToken], some true, JSVal.str "gm", JSVal.str "speaker", []⟩

/-- Both tokens selected, About Time active. -/
def pairGame : Game :=
  ⟨[demoToken, litToken], some true, JSVal.str "gm", JSVal.str "speaker", []⟩

/-- The dialog confirmed with 40 minutes and a vision index past the catalog. -/
def outOfRangeTimedHtml : Html := ⟨"9", "0", "40"⟩

/-- The dialog confirmed with a duration whose triple is not a double. -/
def largeDurationHtml : Html := ⟨"4", "3", "3002399751580333"⟩

/-- The dialog confirmed with a duration of a 1 followed by 308 zeros. -/
def hugeDurationHtml : Html := ⟨"4", "3", "1" ++ String.mk (List.replicate 308 '0')⟩

/-- The world after the demo dialog was confirmed and its update carried out,
and the player then put the torch out by hand. -/
def demoLaterWorld : World :=
  (World.afterClose demoGame demoHtml).applyUpdates
    [(1, [("dimLight", JSVal.num 0), ("brightLight", JSVal.num 0)])]

/-! ## Objects: reads after writes -/

theorem Obj.get_set_same (o : Obj) (k : String) (v : JSVal) :
    Obj.get (Obj.set o k v) k = v := by
  induction o with
  | nil => simp [Obj.set, Obj.get]
  | cons p rest ih =>
    obtain ⟨k', v'⟩ := p
    by_cases h : k' = k
    · simp [Obj.set, Obj.get, h]
    · simp [Obj.set, Obj.get, h, ih]

theorem Obj.get_set_other (o : Obj) (k k' : String) (v : JSVal) (h : k ≠ k') :
    Obj.get (Obj.set o k v) k' = Obj.get o k' := by
  induction o with
  | nil => simp [Obj.set, Obj.get, h]
  | cons p rest ih =>
    obtain ⟨k₁, v₁⟩ := p
    by_cases h₁ : k₁ = k
    · subst h₁
      simp [Obj.set, Obj.get, h]
    · by_cases h₂ : k₁ = k'
      · subst h₂
        simp [Obj.set, Obj.get, h₁]
      · simp [Obj.set, Obj.get, h₁, h₂, ih]

theorem Obj.get_of_not_mem (o : Obj) (k : String) (h : k ∉ o.map Prod.fst) :
    Obj.get o k = JSVal.undefined := by
  induction o with
  | nil => rfl
  | cons p rest ih =>
    obtain ⟨k', v'⟩ := p
    simp only [List.map_cons, List.mem_cons, not_or] at h
    have hne : ¬ k' = k := fun e => h.1 e.symm
    simp [Obj.get, hne, ih h.2]

theorem get_foldl_assign (src : Obj) (k : String) (l : Obj) (target : Obj) :
    Obj.get (l.foldl (fun o p => Obj.set o p.1 (Obj.get src p.1)) target) k
      = if k ∈ l.map Prod.fst then Obj.get src k else Obj.get target k := by
  induction l generalizing target with
  | nil => simp
  | cons p rest ih =>
    simp only [List.foldl_cons, List.map_cons, List.mem_cons]
    rw [ih]
    by_cases hk : k ∈ rest.map Prod.fst
    · simp [hk]
    · by_cases hp : k = p.1
      · subst hp
        simp [hk, Obj.get_set_same]
      · have hp' : p.1 ≠ k := fun e => hp e.symm
        simp [hk, hp, Obj.get_set_other _ _ _ _ hp']

/-- Reading a key of `Object.assign(target, src)`. -/
theorem get_mergeObject (target src : Obj) (k : String) :
    Obj.get (mergeObject target src) k
      = if k ∈ src.map Prod.fst then Obj.get src k else Obj.get target k :=
  get_foldl_assign src k src target

/-- The copy `Object.assign({}, src)` reads like `src` at every key. -/
theorem get_mergeObject_nil (src : Obj) (k : String) :
    Obj.get (mergeObject [] src) k = Obj.get src k := by
  rw [get_mergeObject]
  by_cases hk : k ∈ src.map Prod.fst
  · simp [hk]
  · simp [hk, Obj.get_of_not_mem src k hk, Obj.get]

/-- The literal `52.5` is the fraction stored in `bullseyeAngle`. -/
theorem bullseyeAngle_eq : bullseyeAngle = 52.5 :=
  (Rat.num_div_den bullseyeAngle).symm.trans (by norm_num [bullseyeAngle])

/-! ## The delay arithmetic where it is exact -/

theorem roundToDouble_small (n : Nat) (h : n < 2 ^ 53) : roundToDouble n = n := by
  unfold roundToDouble
  rw [if_pos h]

theorem toNumber_small (n : Nat) (h : n < 2 ^ 53) : toNumber false n = JSNum.fin (n : Int) := by
  have hlt : n < (2 ^ 256) ^ 4 := lt_trans h (by norm_num)
  unfold toNumber
  simp only [roundToDouble_small n h]
  rw [if_neg (Nat.not_le.mpr hlt)]
  rfl

/-- The quotient used by `floorQuarter` is the floor of the exact quotient. -/
theorem floorQuarter_eq_floor (m : Int) : m / 4 = Int.floor ((m : ℚ) / 4) := by
  have h := Rat.floor_intCast_div_natCast m 4
  push_cast at h
  exact h.symm

/-- While `3 * d` stays below `2^53`, `Math.floor(3 * d / 4)` is the integer
quotient of `3 * d` by `4`. -/
theorem warnDelay_exact (d : Int) (hd : 0 < d) (hb : 3 * d < 2 ^ 53) :
    warnDelay (JSNum.fin d) = JSNum.fin ((3 * d) / 4) := by
  have hn : 3 * d.natAbs < 2 ^ 53 := by omega
  have h3 : ((3 * d.natAbs : Nat) : Int) = 3 * d := by omega
  have hneg : ¬ d < 0 := by omega
  simp only [warnDelay, JSNum.times3, hneg, decide_False, toNumber_small _ hn, h3,
    JSNum.floorQuarter]

/-! ## Effects: projections of concatenations -/

theorem registrations_append (a b : List Effect) :
    registrations (a ++ b) = registrations a ++ registrations b := by
  induction a with
  | nil => rfl
  | cons e rest ih => cases e <;> simp [registrations, ih]

theorem updates_append (a b : List Effect) :
    updates (a ++ b) = updates a ++ updates b := by
  induction a with
  | nil => rfl
  | cons e rest ih => cases e <;> simp [updates, ih]

theorem errors_append (a b : List Effect) :
    errors (a ++ b) = errors a ++ errors b := by
  induction a with
  | nil => rfl
  | cons e rest ih => cases e <;> simp [errors, ih]

/-! ## The copy made by `Object.assign` -/

theorem set_getD_self (heap : List Obj) (target : Nat) :
    heap.set target (heap.getD target []) = heap := by
  induction heap generalizing target with
  | nil => rfl
  | cons o rest ih =>
    cases target with
    | zero => rfl
    | succ n =>
      have h := ih n
      simp only [List.getD_eq_getElem?_getD, List.getElem?_cons_succ, List.set_cons_succ] at h ⊢
      rw [h]

theorem foldl_writeProperty (src : Obj) (target : Nat) (l : Obj) (heap : List Obj)
    (h : target < heap.length) :
    l.foldl (fun h p => writeProperty h target p.1 (Obj.get src p.1)) heap
      = heap.set target
          (l.foldl (fun o p => Obj.set o p.1 (Obj.get src p.1)) (heap.getD target [])) := by
  induction l generalizing heap with
  | nil =>
    simp only [List.foldl_nil]
    rw [set_getD_self]
  | cons p rest ih =>
    simp only [List.foldl_cons]
    have h' : target < (writeProperty heap target p.1 (Obj.get src p.1)).length := by
      simp [writeProperty, h]
    rw [ih _ h']
    simp [writeProperty, List.getD_eq_getElem, h]

/-- The heap after `Object.assign({}, token.data)` has one more object, whose
content is the token's data written over the empty object, and the value of
the expression refers to it. -/
theorem copyTokenData_eq (heap : List Obj) (token : Token) :
    copyTokenData heap token
      = (heap ++ [mergeObject [] token.data], Ref.object heap.length) := by
  unfold copyTokenData objectAssign
  rw [foldl_writeProperty token.data heap.length token.data (heap ++ [[]]) (by simp)]
  simp [mergeObject]

/-! ## The scheduling block -/

/-- The scheduling block never updates a token. -/
theorem updates_schedule (g : Game) (token : Token) (d : JSNum) :
    updates (schedule g token d).1 = [] := by
  unfold schedule
  split
  · split
    · rfl
    · split <;> rfl
  · rfl

/-- The scheduling block only ever extends the heap. -/
theorem schedule_heap (g : Game) (token : Token) (d : JSNum) :
    ∃ extra, (schedule g token d).2 = g.heap ++ extra := by
  unfold schedule
  split
  · split
    · exact ⟨[], by simp⟩
    · split
      · exact ⟨[], by simp⟩
      · exact ⟨[mergeObject [] token.data, mergeObject [] token.data], by
          simp [copyTokenData_eq]⟩
  · exact ⟨[], by simp⟩

/-- With About Time active and a positive duration the block allocates two
copies of the token's data and registers the warning and the restore callback,
in that order, each holding its own copy. -/
theorem schedule_active (g : Game) (token : Token) (d : JSNum) (hd : d.isPositive = true)
    (hat : g.aboutTime = some true) :
    schedule g token d =
      ([ Effect.doIn (warnDelay d) (Callback.warn g.speaker (Ref.object g.heap.length)),
         Effect.doIn d (Callback.restore g.speaker token.id (Ref.object (g.heap.length + 1))) ],
       g.heap ++ [mergeObject [] token.data, mergeObject [] token.data]) := by
  simp [schedule, hd, hat, copyTokenData_eq]

/-- Without a positive duration the block does nothing. -/
theorem schedule_no_duration (g : Game) (token : Token) (d : JSNum)
    (hd : d.isPositive = false) : schedule g token d = ([], g.heap) := by
  simp [schedule, hd]

/-- With a positive duration and About Time missing or inactive the block only
reports an error. -/
theorem schedule_unavailable (g : Game) (token : Token) (d : JSNum) (hd : d.isPositive = true)
    (hat : g.aboutTime = none ∨ g.aboutTime = some false) :
    schedule g token d = ([Effect.notifyError (unavailableMessage g.aboutTime)], g.heap) := by
  rcases hat with h | h
  · simp [schedule, hd, h, unavailableMessage]
  · simp [schedule, hd, h, unavailableMessage]

/-! ## The handler when both lookups succeed -/

theorem closeToken_valid (g : Game) (html : Html) (vision light : Obj)
    (hv : arrayAt visions (parseIntOrZero html.visionType) = some vision)
    (hl : arrayAt lightSources (parseIntOrZero html.lightSource) = some light)
    (token : Token) :
    closeToken g html token
      = ⟨(schedule g token (parseIntOrZero html.duration)).1 ++
          [Effect.consoleLog token,
            Effect.update token.id (immediatePatch vision light token.data)],
          false, (schedule g token (parseIntOrZero html.duration)).2⟩ := by
  simp [closeToken, hv, hl]

/-- One step of the loop when both lookups succeed. -/
theorem closeLoop_cons_valid (g : Game) (html : Html) (vision light : Obj)
    (hv : arrayAt visions (parseIntOrZero html.visionType) = some vision)
    (hl : arrayAt lightSources (parseIntOrZero html.lightSource) = some light)
    (token : Token) (rest : List Token) :
    closeLoop g html (token :: rest)
      = ⟨((schedule g token (parseIntOrZero html.duration)).1 ++
            [Effect.consoleLog token,
              Effect.update token.id (immediatePatch vision light token.data)]) ++
          (closeLoop { g with heap := (schedule g token (parseIntOrZero html.duration)).2 }
            html rest).effects,
          (closeLoop { g with heap := (schedule g token (parseIntOrZero html.duration)).2 }
            html rest).threw,
          (closeLoop { g with heap := (schedule g token (parseIntOrZero html.duration)).2 }
            html rest).heap⟩ := by
  simp [closeLoop, closeToken_valid g html vision light hv hl]

theorem threw_closeLoop_valid (html : Html) (vision light : Obj)
    (hv : arrayAt visions (parseIntOrZero html.visionType) = some vision)
    (hl : arrayAt lightSources (parseIntOrZero html.lightSource) = some light)
    (tokens : List Token) (g : Game) :
    (closeLoop g html tokens).threw = false := by
  induction tokens generalizing g with
  | nil => rfl
  | cons t rest ih =>
    rw [closeLoop_cons_valid g html vision light hv hl]
    exact ih _

theorem updates_closeLoop_valid (html : Html) (vision light : Obj)
    (hv : arrayAt visions (parseIntOrZero html.visionType) = some vision)
    (hl : arrayAt lightSources (parseIntOrZero html.lightSource) = some light)
    (tokens : List Token) (g : Game) :
    updates (closeLoop g html tokens).effects
      = tokens.map (fun t => (t.id, immediatePatch vision light t.data)) := by
  induction tokens generalizing g with
  | nil => rfl
  | cons t rest ih =>
    rw [closeLoop_cons_valid g html vision light hv hl]
    simp [updates_append, updates_schedule, updates, ih]

theorem threw_close_valid (g : Game) (html : Html) (vision light : Obj)
    (hv : arrayAt visions (parseIntOrZero html.visionType) = some vision)
    (hl : arrayAt lightSources (parseIntOrZero html.lightSource) = some light) :
    (close g true html).threw = false := by
  simp only [close, if_true]
  exact threw_closeLoop_valid html vision light hv hl g.controlled g

theorem updates_close_valid (g : Game) (html : Html) (vision light : Obj)
    (hv : arrayAt visions (parseIntOrZero html.visionType) = some vision)
    (hl : arrayAt lightSources (parseIntOrZero html.lightSource) = some light) :
    updates (close g true html).effects
      = g.controlled.map (fun t => (t.id, immediatePatch vision light t.data)) := by
  simp only [close, if_true]
  exact updates_closeLoop_valid html vision light hv hl g.controlled g

/-- When the scheduling block registers nothing, neither does the loop. -/
theorem registrations_closeLoop_nil (html : Html) (vision light : Obj)
    (hv : arrayAt visions (parseIntOrZero html.visionType) = some vision)
    (hl : arrayAt lightSources (parseIntOrZero html.lightSource) = some light)
    (aboutTime : Option Bool)
    (h : ∀ (g : Game) (t : Token), g.aboutTime = aboutTime →
      registrations (schedule g t (parseIntOrZero html.duration)).1 = [])
    (tokens : List Token) (g : Game) (hg : g.aboutTime = aboutTime) :
    registrations (closeLoop g html tokens).effects = [] := by
  induction tokens generalizing g with
  | nil => rfl
  | cons t rest ih =>
    rw [closeLoop_cons_valid g html vision light hv hl]
    have ih' := ih { g with heap := (schedule g t (parseIntOrZero html.duration)).2 } hg
    simp only [registrations_append, h g t hg, registrations, ih', List.append_nil]

/-- The errors of the loop, when each scheduling block reports `msgs`. -/
theorem errors_closeLoop_const (html : Html) (vision light : Obj)
    (hv : arrayAt visions (parseIntOrZero html.visionType) = some vision)
    (hl : arrayAt lightSources (parseIntOrZero html.lightSource) = some light)
    (aboutTime : Option Bool) (msgs : List String)
    (h : ∀ (g : Game) (t : Token), g.aboutTime = aboutTime →
      errors (schedule g t (parseIntOrZero html.duration)).1 = msgs)
    (tokens : List Token) (g : Game) (hg : g.aboutTime = aboutTime) :
    errors (closeLoop g html tokens).effects = tokens.flatMap (fun _ => msgs) := by
  induction tokens generalizing g with
  | nil => rfl
  | cons t rest ih =>
    rw [closeLoop_cons_valid g html vision light hv hl]
    have ih' := ih { g with heap := (schedule g t (parseIntOrZero html.duration)).2 } hg
    simp only [errors_append, h g t hg, errors, ih', List.append_nil, List.flatMap_cons]

/-- With About Time active and a positive duration, the registrations of the
loop and the heap it leaves. -/
theorem closeLoop_active (html : Html) (vision light : Obj)
    (hv : arrayAt visions (parseIntOrZero html.visionType) = some vision)
    (hl : arrayAt lightSources (parseIntOrZero html.lightSource) = some light)
    (hd : (parseIntOrZero html.duration).isPositive = true)
    (tokens : List Token) (g : Game) (hat : g.aboutTime = some true) :
    registrations (closeLoop g html tokens).effects
      = expectedRegistrations g.speaker (parseIntOrZero html.duration) g.heap.length tokens ∧
    (closeLoop g html tokens).heap = g.heap ++ copiesOf tokens := by
  induction tokens generalizing g with
  | nil => simp [closeLoop, registrations, expectedRegistrations, copiesOf]
  | cons t rest ih =>
    rw [closeLoop_cons_valid g html vision light hv hl]
    rw [schedule_active g t _ hd hat]
    obtain ⟨ih1, ih2⟩ := ih { g with heap := g.heap ++
      [mergeObject [] t.data, mergeObject [] t.data] } hat
    dsimp only at ih1 ih2
    simp only [List.length_append, List.length_cons, List.length_nil, Nat.zero_add] at ih1
    refine ⟨?_, ?_⟩
    · simp only [registrations_append, registrations, expectedRegistrations, List.append_nil,
        List.append_eq, List.nil_append]
      rw [ih1]
    · simp only [ih2]
      simp [copiesOf, List.flatMap_cons]

theorem expectedRegistrations_length (speaker : JSVal) (d : JSNum) (tokens : List Token)
    (base : Nat) :
    (expectedRegistrations speaker d base tokens).length = 2 * tokens.length := by
  induction tokens generalizing base with
  | nil => rfl
  | cons t rest ih =>
    simp only [expectedRegistrations, List.length_cons, ih]
    omega

/-- Each token of the list has its restore callback among the expected
registrations, and the reference it holds points at a copy of that token's
data in any heap that starts with `base` objects followed by the copies. -/
theorem expectedRegistrations_restore (speaker : JSVal) (d : JSNum) (tokens : List Token)
    (token : Token) (hmem : token ∈ tokens) (pre : List Obj) :
    ∃ n, (d, Callback.restore speaker token.id (Ref.object n))
        ∈ expectedRegistrations speaker d pre.length tokens ∧
      (pre ++ copiesOf tokens)[n]? = some (mergeObject [] token.data) := by
  induction tokens generalizing pre with
  | nil => cases hmem
  | cons t rest ih =>
    rcases List.mem_cons.mp hmem with h | h
    · subst h
      refine ⟨pre.length + 1, ?_, ?_⟩
      · simp [expectedRegistrations]
      · rw [List.getElem?_append_right (Nat.le_add_right _ _)]
        simp [copiesOf, List.flatMap_cons]
    · obtain ⟨n, hn1, hn2⟩ := ih h (pre ++ [mergeObject [] t.data, mergeObject [] t.data])
      refine ⟨n, ?_, ?_⟩
      · simp only [expectedRegistrations]
        refine List.mem_cons_of_mem _ (List.mem_cons_of_mem _ ?_)
        simpa [Nat.add_assoc] using hn1
      · simpa [copiesOf, List.flatMap_cons] using hn2

/-! ## The catalogs hold no `undefined` -/

theorem visions_length : visions.length = 9 := by decide

theorem lightSources_length : lightSources.length = 8 := by decide

theorem visions_defined : ∀ v ∈ visions,
    Obj.get v "dim" ≠ JSVal.undefined ∧ Obj.get v "bright" ≠ JSVal.undefined := by
  decide

theorem lightSources_defined : ∀ l ∈ lightSources,
    Obj.get l "dim" ≠ JSVal.undefined ∧ Obj.get l "bright" ≠ JSVal.undefined ∧
    Obj.get l "angle" ≠ JSVal.undefined ∧ Obj.get l "lockRotation" ≠ JSVal.undefined := by
  decide

theorem lightSources_named : ∀ l ∈ lightSources,
    (Obj.get l "name" = JSVal.str "None" →
      Obj.get l "dim" = JSVal.num 0 ∧ Obj.get l "bright" = JSVal.num 0) ∧
    (Obj.get l "name" = JSVal.str "Bullseye Lantern" →
      Obj.get l "lockRotation" = JSVal.bool false) := by
  decide

theorem overlaid_nullish (a b : JSVal) (h : a ≠ JSVal.undefined) :
    Overlaid a b (nullish a b) := by
  cases a <;> simp_all [Overlaid, nullish]

/-- An index in range reads its catalog entry. -/
theorem arrayAt_natCast (arr : List Obj) (i : Nat) :
    arrayAt arr (JSNum.fin (i : Int)) = arr[i]? := by
  simp [arrayAt]

theorem arrayAt_mem (arr : List Obj) (i : JSNum) (o : Obj) (h : arrayAt arr i = some o) :
    o ∈ arr := by
  cases i with
  | fin n =>
    simp only [arrayAt] at h
    split at h
    · exact List.getElem?_mem h
    · cases h
  | posInf => cases h
  | negInf => cases h

theorem arrayAt_out_of_range (arr : List Obj) (i : JSNum)
    (h : i.inRange arr.length = false) : arrayAt arr i = none := by
  cases i with
  | fin n =>
    simp only [JSNum.inRange, Bool.and_eq_false_iff, decide_eq_false_iff_not] at h
    simp only [arrayAt]
    split
    · apply List.getElem?_eq_none
      omega
    · rfl
  | posInf => rfl
  | negInf => rfl

theorem arrayAt_visions (vi : Nat) (hvi : vi < 9) :
    ∃ vision, visions[vi]? = some vision ∧
      arrayAt visions (JSNum.fin (vi : Int)) = some vision := by
  have h : vi < visions.length := by rw [visions_length]; exact hvi
  exact ⟨visions[vi], List.getElem?_eq_getElem h, by
    rw [arrayAt_natCast]; exact List.getElem?_eq_getElem h⟩

theorem arrayAt_lightSources (li : Nat) (hli : li < 8) :
    ∃ light, lightSources[li]? = some light ∧
      arrayAt lightSources (JSNum.fin (li : Int)) = some light := by
  have h : li < lightSources.length := by rw [lightSources_length]; exact hli
  exact ⟨lightSources[li], List.getElem?_eq_getElem h, by
    rw [arrayAt_natCast]; exact List.getElem?_eq_getElem h⟩

/-- The six overlay facts about the immediate patch, for catalog entries. -/
theorem immediatePatch_overlaid (vision light : Obj) (hv : vision ∈ visions)
    (hl : light ∈ lightSources) (data : Obj) :
    Overlaid (Obj.get vision "dim") (Obj.get data "dimSight")
        (Obj.get (immediatePatch vision light data) "dimSight") ∧
    Overlaid (Obj.get vision "bright") (Obj.get data "brightSight")
        (Obj.get (immediatePatch vision light data) "brightSight") ∧
    Overlaid (Obj.get light "dim") (Obj.get data "dimLight")
        (Obj.get (immediatePatch vision light data) "dimLight") ∧
    Overlaid (Obj.get light "bright") (Obj.get data "brightLight")
        (Obj.get (immediatePatch vision light data) "brightLight") ∧
    Overlaid (Obj.get light "angle") (Obj.get data "lightAngle")
        (Obj.get (immediatePatch vision light data) "lightAngle") ∧
    Overlaid (Obj.get light "lockRotation") (Obj.get data "lockRotation")
        (Obj.get (immediatePatch vision light data) "lockRotation") := by
  obtain ⟨v1, v2⟩ := visions_defined vision hv
  obtain ⟨l1, l2, l3, l4⟩ := lightSources_defined light hl
  exact ⟨overlaid_nullish _ _ v1, overlaid_nullish _ _ v2, overlaid_nullish _ _ l1,
    overlaid_nullish _ _ l2, overlaid_nullish _ _ l3, overlaid_nullish _ _ l4⟩

/-- The restore patch reads the backup at each of the six fields. -/
theorem restorePatch_get (backup : Obj) : ∀ f ∈ sixFields,
    Obj.get (restorePatch backup) f = Obj.get backup f := by
  intro f hf
  simp only [sixFields, List.mem_cons, List.mem_singleton, List.not_mem_nil, or_false] at hf
  rcases hf with h | h | h | h | h | h <;> subst h <;> rfl

theorem restorePatch_keys (backup : Obj) :
    (restorePatch backup).map Prod.fst = "vision" :: sixFields := rfl

theorem parseIntOrZero_of_absent (s : String)
    (h : parseInt s = none ∨ parseInt s = some (JSNum.fin 0)) :
    parseIntOrZero s = JSNum.fin 0 := by
  rcases h with h | h <;> simp [parseIntOrZero, h]

theorem parseIntOrZero_of_nan (s : String) (h : parseInt s = none) :
    parseIntOrZero s = JSNum.fin 0 := by
  simp [parseIntOrZero, h]

/-! ## The loop body when a lookup fails -/

theorem registrations_closeToken (g : Game) (html : Html) (token : Token) :
    registrations (closeToken g html token).effects
      = registrations (schedule g token (parseIntOrZero html.duration)).1 := by
  rcases h1 : arrayAt visions (parseIntOrZero html.visionType) with _ | vision
  · simp [closeToken, h1]
  · rcases h2 : arrayAt lightSources (parseIntOrZero html.lightSource) with _ | light
    · simp [closeToken, h1, h2]
    · simp [closeToken, h1, h2, registrations_append, registrations]

theorem heap_closeToken (g : Game) (html : Html) (token : Token) :
    (closeToken g html token).heap = (schedule g token (parseIntOrZero html.duration)).2 := by
  rcases h1 : arrayAt visions (parseIntOrZero html.visionType) with _ | vision
  · simp [closeToken, h1]
  · rcases h2 : arrayAt lightSources (parseIntOrZero html.lightSource) with _ | light
    · simp [closeToken, h1, h2]
    · simp [closeToken, h1, h2]

theorem updates_closeToken_of_threw (g : Game) (html : Html) (token : Token)
    (h : (closeToken g html token).threw = true) :
    updates (closeToken g html token).effects = [] := by
  rcases h1 : arrayAt visions (parseIntOrZero html.visionType) with _ | vision
  · simp [closeToken, h1, updates_schedule]
  · rcases h2 : arrayAt lightSources (parseIntOrZero html.lightSource) with _ | light
    · simp [closeToken, h1, h2, updates_schedule]
    · simp [closeToken, h1, h2] at h

theorem closeToken_threw_of_out_of_range (g : Game) (html : Html) (token : Token)
    (h : (parseIntOrZero html.visionType).inRange 9 = false ∨
      (parseIntOrZero html.lightSource).inRange 8 = false) :
    (closeToken g html token).threw = true := by
  rcases h1 : arrayAt visions (parseIntOrZero html.visionType) with _ | vision
  · simp [closeToken, h1]
  · rcases h2 : arrayAt lightSources (parseIntOrZero html.lightSource) with _ | light
    · simp [closeToken, h1, h2]
    · exfalso
      rcases h with h | h
      · rw [arrayAt_out_of_range visions _ (by rw [visions_length]; exact h)] at h1
        cases h1
      · rw [arrayAt_out_of_range lightSources _ (by rw [lightSources_length]; exact h)] at h2
        cases h2

theorem updates_closeToken_vision (g : Game) (html : Html) (token : Token) :
    ∀ p ∈ updates (closeToken g html token).effects, Obj.get p.2 "vision" = JSVal.bool true := by
  rcases h1 : arrayAt visions (parseIntOrZero html.visionType) with _ | vision
  · simp [closeToken, h1, updates_schedule]
  · rcases h2 : arrayAt lightSources (parseIntOrZero html.lightSource) with _ | light
    · simp [closeToken, h1, h2, updates_schedule]
    · intro p hp
      simp [closeToken, h1, h2, updates_append, updates_schedule, updates] at hp
      subst hp
      rfl

theorem updates_closeLoop_vision (html : Html) (tokens : List Token) (g : Game) :
    ∀ p ∈ updates (closeLoop g html tokens).effects, Obj.get p.2 "vision" = JSVal.bool true := by
  induction tokens generalizing g with
  | nil => intro p hp; simp [closeLoop, updates] at hp
  | cons t rest ih =>
    intro p hp
    unfold closeLoop at hp
    by_cases ht : (closeToken g html t).threw = true
    · simp only [ht, if_true] at hp
      exact updates_closeToken_vision g html t p hp
    · simp only [ht] at hp
      simp only [Bool.false_eq_true, if_false, updates_append, List.mem_append] at hp
      rcases hp with hp | hp
      · exact updates_closeToken_vision g html t p hp
      · exact ih _ p hp

/-! ## Worlds -/

theorem World.heap_update (w : World) (tokenId : Nat) (patch : Obj) :
    (w.update tokenId patch).heap = w.heap := rfl

theorem World.heap_applyUpdates (us : List (Nat × Obj)) (w : World) :
    (w.applyUpdates us).heap = w.heap := by
  induction us generalizing w with
  | nil => rfl
  | cons u rest ih =>
    obtain ⟨i, p⟩ := u
    simp only [World.applyUpdates]
    rw [ih]
    rfl

theorem World.heap_afterClose (g : Game) (html : Html) :
    (World.afterClose g html).heap = (close g true html).heap := by
  unfold World.afterClose
  rw [World.heap_applyUpdates]

/-- After the host carries out an update, every token with that identity reads
the patch's value at each key of the patch. -/
theorem World.get_update (w : World) (tokenId : Nat) (patch : Obj) (f : String)
    (hf : f ∈ patch.map Prod.fst) :
    ∀ t ∈ (w.update tokenId patch).tokens, t.id = tokenId →
      Obj.get t.data f = Obj.get patch f := by
  intro t ht hid
  simp only [World.update, List.mem_map] at ht
  obtain ⟨t0, _, h0⟩ := ht
  by_cases hc : t0.id = tokenId
  · rw [if_pos hc] at h0
    subst h0
    simp only [Token.applyUpdate]
    rw [get_mergeObject, if_pos hf]
  · rw [if_neg hc] at h0
    subst h0
    exact absurd hid hc

/-- What the restore callback does in a world whose heap holds a copy of
`data` at the callback's reference: one update of the captured token, writing
the six fields of `data` back. -/
theorem fire_restore (w : World) (speaker : JSVal) (tokenId n : Nat) (data : Obj)
    (hn : w.heap[n]? = some (mergeObject [] data)) :
    updates (Callback.fire w (Callback.restore speaker tokenId (Ref.object n)))
      = [(tokenId, restorePatch (mergeObject [] data))] ∧
    ∀ f ∈ sixFields,
      Obj.get (restorePatch (mergeObject [] data)) f = Obj.get data f ∧
      ∀ t ∈ (w.update tokenId (restorePatch (mergeObject [] data))).tokens,
        t.id = tokenId → Obj.get t.data f = Obj.get data f := by
  have hr : w.read (Ref.object n) = mergeObject [] data := by
    simp [World.read, List.getD, hn]
  refine ⟨?_, ?_⟩
  · simp [Callback.fire, updates, hr]
  · intro f hf
    have h1 : Obj.get (restorePatch (mergeObject [] data)) f = Obj.get data f := by
      rw [restorePatch_get _ f hf, get_mergeObject_nil]
    refine ⟨h1, ?_⟩
    intro t ht hid
    have hk : f ∈ (restorePatch (mergeObject [] data)).map Prod.fst := by
      rw [restorePatch_keys]
      exact List.mem_cons_of_mem _ hf
    rw [World.get_update w tokenId _ f hk t ht hid, h1]

/-- With valid indices, a positive duration and About Time active, every
selected token has its restore callback registered at the duration, holding a
reference at which the heap left by the handler has a copy of the token's
data. -/
theorem close_registers_restore (g : Game) (html : Html) (vision light : Obj)
    (hv : arrayAt visions (parseIntOrZero html.visionType) = some vision)
    (hl : arrayAt lightSources (parseIntOrZero html.lightSource) = some light)
    (hd : (parseIntOrZero html.duration).isPositive = true)
    (hat : g.aboutTime = some true) (token : Token) (hmem : token ∈ g.controlled) :
    ∃ n, (parseIntOrZero html.duration, Callback.restore g.speaker token.id (Ref.object n))
        ∈ registrations (close g true html).effects ∧
      ∀ extra : List Obj,
        ((close g true html).heap ++ extra)[n]? = some (mergeObject [] token.data) := by
  obtain ⟨h1, h2⟩ := closeLoop_active html vision light hv hl hd g.controlled g hat
  obtain ⟨n, hn1, hn2⟩ := expectedRegistrations_restore g.speaker
    (parseIntOrZero html.duration) g.controlled token hmem g.heap
  refine ⟨n, ?_, ?_⟩
  · simp only [close, if_true]
    rw [h1]
    exact hn1
  · intro extra
    simp only [close, if_true]
    rw [h2]
    have hlt : n < (g.heap ++ copiesOf g.controlled).length := by
      rcases List.getElem?_eq_some_iff.mp hn2 with ⟨h, _⟩
      exact h
    rw [List.getElem?_append_left hlt]
    exact hn2

/-! ## The claims -/

/-- C1: for valid preset indices, confirming the dialog issues one update per
selected token, and in it each of the six fields is the preset's value when
that value is not null and the token's current value otherwise: the two sight
fields from the vision preset's `dim` and `bright`, the four light fields from
the light preset's `dim`, `bright`, `angle` and `lockRotation`. -/
theorem immediate_update_overlays_presets (g : Game) (html : Html) (vi li : Nat)
    (hvi : vi < 9) (hli : li < 8)
    (hv : parseIntOrZero html.visionType = JSNum.fin (vi : Int))
    (hl : parseIntOrZero html.lightSource = JSNum.fin (li : Int)) :
    ∃ vision light, visions[vi]? = some vision ∧ lightSources[li]? = some light ∧
      (close g true html).threw = false ∧
      updates (close g true html).effects
        = g.controlled.map (fun t => (t.id, immediatePatch vision light t.data)) ∧
      ∀ data : Obj,
        Overlaid (Obj.get vision "dim") (Obj.get data "dimSight")
            (Obj.get (immediatePatch vision light data) "dimSight") ∧
        Overlaid (Obj.get vision "bright") (Obj.get data "brightSight")
            (Obj.get (immediatePatch vision light data) "brightSight") ∧
        Overlaid (Obj.get light "dim") (Obj.get data "dimLight")
            (Obj.get (immediatePatch vision light data) "dimLight") ∧
        Overlaid (Obj.get light "bright") (Obj.get data "brightLight")
            (Obj.get (immediatePatch vision light data) "brightLight") ∧
        Overlaid (Obj.get light "angle") (Obj.get data "lightAngle")
            (Obj.get (immediatePatch vision light data) "lightAngle") ∧
        Overlaid (Obj.get light "lockRotation") (Obj.get data "lockRotation")
            (Obj.get (immediatePatch vision light data) "lockRotation") := by
  obtain ⟨vision, hv1, hv2⟩ := arrayAt_visions vi hvi
  obtain ⟨light, hl1, hl2⟩ := arrayAt_lightSources li hli
  rw [← hv] at hv2
  rw [← hl] at hl2
  refine ⟨vision, light, hv1, hl1, threw_close_valid g html vision light hv2 hl2,
    updates_close_valid g html vision light hv2 hl2, ?_⟩
  · exact immediatePatch_overlaid vision light (arrayAt_mem _ _ _ hv2) (arrayAt_mem _ _ _ hl2)

theorem immediate_update_overlays_presets_witness :
    ∃ vision light, visions[4]? = some vision ∧ lightSources[3]? = some light ∧
      (close demoGame true demoHtml).threw = false ∧
      updates (close demoGame true demoHtml).effects
        = demoGame.controlled.map (fun t => (t.id, immediatePatch vision light t.data)) ∧
      ∀ data : Obj,
        Overlaid (Obj.get vision "dim") (Obj.get data "dimSight")
            (Obj.get (immediatePatch vision light data) "dimSight") ∧
        Overlaid (Obj.get vision "bright") (Obj.get data "brightSight")
            (Obj.get (immediatePatch vision light data) "brightSight") ∧
        Overlaid (Obj.get light "dim") (Obj.get data "dimLight")
            (Obj.get (immediatePatch vision light data) "dimLight") ∧
        Overlaid (Obj.get light "bright") (Obj.get data "brightLight")
            (Obj.get (immediatePatch vision light data) "brightLight") ∧
        Overlaid (Obj.get light "angle") (Obj.get data "lightAngle")
            (Obj.get (immediatePatch vision light data) "lightAngle") ∧
        Overlaid (Obj.get light "lockRotation") (Obj.get data "lockRotation")
            (Obj.get (immediatePatch vision light data) "lockRotation") :=
  immediate_update_overlays_presets demoGame demoHtml 4 3 (by decide) (by decide)
    (by decide) (by decide)

/-- C4: with a positive duration and About Time missing or not active, a
confirmed dialog with valid indices reports the error (once per selected
token), registers no callback, does not throw, and issues exactly the updates
it issues when About Time is active: one per token, carrying the resolved
fields. -/
theorem scheduling_unavailable_still_updates (g : Game) (html : Html) (vi li : Nat)
    (d : JSNum) (hvi : vi < 9) (hli : li < 8)
    (hv : parseIntOrZero html.visionType = JSNum.fin (vi : Int))
    (hl : parseIntOrZero html.lightSource = JSNum.fin (li : Int))
    (hdur : parseIntOrZero html.duration = d) (hd : d.isPositive = true)
    (hat : g.aboutTime = none ∨ g.aboutTime = some false) :
    errors (close g true html).effects
      = g.controlled.map (fun _ => unavailableMessage g.aboutTime) ∧
    registrations (close g true html).effects = [] ∧
    (close g true html).threw = false ∧
    updates (close g true html).effects
      = updates (close { g with aboutTime := some true } true html).effects ∧
    ∃ vision light, visions[vi]? = some vision ∧ lightSources[li]? = some light ∧
      updates (close g true html).effects
        = g.controlled.map (fun t => (t.id, immediatePatch vision light t.data)) := by
  obtain ⟨vision, hv1, hv2⟩ := arrayAt_visions vi hvi
  obtain ⟨light, hl1, hl2⟩ := arrayAt_lightSources li hli
  rw [← hv] at hv2
  rw [← hl] at hl2
  have hu := updates_close_valid g html vision light hv2 hl2
  have hu' := updates_close_valid { g with aboutTime := some true } html vision light hv2 hl2
  subst hdur
  refine ⟨?_, ?_, threw_close_valid g html vision light hv2 hl2, ?_, vision, light, hv1, hl1,
    hu⟩
  · simp only [close, if_true]
    rw [errors_closeLoop_const html vision light hv2 hl2 g.aboutTime
      [unavailableMessage g.aboutTime] ?_ g.controlled g rfl]
    · generalize g.controlled = ts
      induction ts with
      | nil => rfl
      | cons t rest ih =>
        simp only [List.flatMap_cons, List.map_cons, ih]
        rfl
    · intro g' t hg'
      rw [schedule_unavailable g' t _ hd (by rw [hg']; exact hat), hg']
      rfl
  · simp only [close, if_true]
    apply registrations_closeLoop_nil html vision light hv2 hl2 g.aboutTime ?_ g.controlled g rfl
    intro g' t hg'
    rw [schedule_unavailable g' t _ hd (by rw [hg']; exact hat)]
    rfl
  · rw [hu]
    exact hu'.symm

theorem scheduling_unavailable_still_updates_witness :
    errors (close inactiveGame true demoHtml).effects
      = inactiveGame.controlled.map (fun _ => unavailableMessage inactiveGame.aboutTime) ∧
    registrations (close inactiveGame true demoHtml).effects = [] ∧
    (close inactiveGame true demoHtml).threw = false ∧
    updates (close inactiveGame true demoHtml).effects
      = updates (close { inactiveGame with aboutTime := some true } true demoHtml).effects ∧
    ∃ vision light, visions[4]? = some vision ∧ lightSources[3]? = some light ∧
      updates (close inactiveGame true demoHtml).effects
        = inactiveGame.controlled.map (fun t => (t.id, immediatePatch vision light t.data)) :=
  scheduling_unavailable_still_updates inactiveGame demoHtml 4 3 (JSNum.fin 40) (by decide)
    (by decide)
    (by decide) (by decide) (by decide) (by decide) (Or.inr rfl)

/-- C5: when the duration input parses to 0 or does not parse at all (the empty
string does not), a confirmed dialog with valid indices registers no callback
and reports no error, whatever the state of the About Time module, and still
issues one update per selected token with the resolved fields. -/
theorem no_duration_no_scheduling (g : Game) (html : Html) (vi li : Nat)
    (hvi : vi < 9) (hli : li < 8)
    (hv : parseIntOrZero html.visionType = JSNum.fin (vi : Int))
    (hl : parseIntOrZero html.lightSource = JSNum.fin (li : Int))
    (hdur : parseInt html.duration = none ∨ parseInt html.duration = some (JSNum.fin 0)) :
    parseInt "" = none ∧
    registrations (close g true html).effects = [] ∧
    errors (close g true html).effects = [] ∧
    (close g true html).threw = false ∧
    ∃ vision light, visions[vi]? = some vision ∧ lightSources[li]? = some light ∧
      updates (close g true html).effects
        = g.controlled.map (fun t => (t.id, immediatePatch vision light t.data)) := by
  obtain ⟨vision, hv1, hv2⟩ := arrayAt_visions vi hvi
  obtain ⟨light, hl1, hl2⟩ := arrayAt_lightSources li hli
  rw [← hv] at hv2
  rw [← hl] at hl2
  have h0 := parseIntOrZero_of_absent html.duration hdur
  have hs : ∀ (g' : Game) (t : Token),
      schedule g' t (parseIntOrZero html.duration) = ([], g'.heap) := by
    intro g' t
    rw [h0]
    exact schedule_no_duration g' t _ rfl
  refine ⟨by decide, ?_, ?_, threw_close_valid g html vision light hv2 hl2, vision, light,
    hv1, hl1, updates_close_valid g html vision light hv2 hl2⟩
  · simp only [close, if_true]
    apply registrations_closeLoop_nil html vision light hv2 hl2 g.aboutTime ?_ g.controlled g rfl
    intro g' t _
    rw [hs g' t]
    rfl
  · simp only [close, if_true]
    rw [errors_closeLoop_const html vision light hv2 hl2 g.aboutTime [] ?_ g.controlled g rfl]
    · generalize g.controlled = ts
      induction ts with
      | nil => rfl
      | cons t rest ih => simp [List.flatMap_cons]
    · intro g' t _
      rw [hs g' t]
      rfl

theorem no_duration_no_scheduling_witness :
    parseInt "" = none ∧
    registrations (close demoGame true noDurationHtml).effects = [] ∧
    errors (close demoGame true noDurationHtml).effects = [] ∧
    (close demoGame true noDurationHtml).threw = false ∧
    ∃ vision light, visions[4]? = some vision ∧ lightSources[3]? = some light ∧
      updates (close demoGame true noDurationHtml).effects
        = demoGame.controlled.map (fun t => (t.id, immediatePatch vision light t.data)) :=
  no_duration_no_scheduling demoGame noDurationHtml 4 3 (by decide) (by decide)
    (by decide) (by decide) (Or.inl (by decide))

/-- C7: run with an empty selection, the script makes exactly one host call,
the error notification "Please select a token": no token update, no callback
registration and no dialog. -/
theorem empty_selection_only_notifies (g : Game) (h : g.controlled = []) :
    script g = [Effect.notifyError "Please select a token"] ∧
    errors (script g) = ["Please select a token"] ∧
    updates (script g) = [] ∧
    registrations (script g) = [] ∧
    Effect.renderDialog ∉ script g := by
  have hs : script g = [Effect.notifyError "Please select a token"] := by
    simp [script, h]
  rw [hs]
  refine ⟨rfl, rfl, rfl, rfl, ?_⟩
  simp

theorem empty_selection_only_notifies_witness :
    script emptyGame = [Effect.notifyError "Please select a token"] ∧
    errors (script emptyGame) = ["Please select a token"] ∧
    updates (script emptyGame) = [] ∧
    registrations (script emptyGame) = [] ∧
    Effect.renderDialog ∉ script emptyGame :=
  empty_selection_only_notifies emptyGame rfl

/-- C6, as stated, fails: the vision value "9" parses to 9, one past the
nine-entry catalog; the handler then throws at the catalog read and issues no
update, where a clamp to index 0 would have issued the "Leave Unchanged"
update. -/
theorem out_of_range_index_not_clamped :
    parseIntOrZero outOfRangeHtml.visionType = JSNum.fin 9 ∧ visions.length = 9 ∧
    (close demoGame true outOfRangeHtml).threw = true ∧
    updates (close demoGame true outOfRangeHtml).effects = [] ∧
    (close demoGame true unchangedHtml).threw = false ∧
    updates (close demoGame true unchangedHtml).effects ≠ [] := by
  decide

/-- C6, amended: a vision or light value that does not parse (`NaN`) falls
back to index 0, "Leave Unchanged", so with the other index valid the handler
does not throw and every selected token's update keeps the token's current
values in the affected fields. An index that parses to an integer outside its
catalog is not clamped: the loop body throws and issues no update. -/
theorem unparseable_index_falls_back (g : Game) (html : Html) :
    (parseInt html.visionType = none → ∀ li : Nat, li < 8 →
      parseIntOrZero html.lightSource = JSNum.fin (li : Int) →
      ∃ light, lightSources[li]? = some light ∧
        (close g true html).threw = false ∧
        updates (close g true html).effects
          = g.controlled.map (fun t => (t.id, immediatePatch (visions.getD 0 []) light t.data)) ∧
        ∀ data : Obj,
          Obj.get (immediatePatch (visions.getD 0 []) light data) "dimSight"
            = Obj.get data "dimSight" ∧
          Obj.get (immediatePatch (visions.getD 0 []) light data) "brightSight"
            = Obj.get data "brightSight") ∧
    (parseInt html.lightSource = none → ∀ vi : Nat, vi < 9 →
      parseIntOrZero html.visionType = JSNum.fin (vi : Int) →
      ∃ vision, visions[vi]? = some vision ∧
        (close g true html).threw = false ∧
        updates (close g true html).effects
          = g.controlled.map (fun t =>
              (t.id, immediatePatch vision (lightSources.getD 0 []) t.data)) ∧
        ∀ data : Obj,
          Obj.get (immediatePatch vision (lightSources.getD 0 []) data) "dimLight"
            = Obj.get data "dimLight" ∧
          Obj.get (immediatePatch vision (lightSources.getD 0 []) data) "brightLight"
            = Obj.get data "brightLight" ∧
          Obj.get (immediatePatch vision (lightSources.getD 0 []) data) "lightAngle"
            = Obj.get data "lightAngle" ∧
          Obj.get (immediatePatch vision (lightSources.getD 0 []) data) "lockRotation"
            = Obj.get data "lockRotation") ∧
    (((parseIntOrZero html.visionType).inRange 9 = false ∨
        (parseIntOrZero html.lightSource).inRange 8 = false) →
      ∀ token : Token, (closeToken g html token).threw = true ∧
        updates (closeToken g html token).effects = []) := by
  refine ⟨?_, ?_, ?_⟩
  · intro hnan li hli hl
    obtain ⟨light, hl1, hl2⟩ := arrayAt_lightSources li hli
    rw [← hl] at hl2
    have hv2 : arrayAt visions (parseIntOrZero html.visionType) = some (visions.getD 0 []) := by
      rw [parseIntOrZero_of_nan _ hnan]
      decide
    refine ⟨light, hl1, threw_close_valid g html _ light hv2 hl2,
      updates_close_valid g html _ light hv2 hl2, ?_⟩
    · intro data
      exact ⟨rfl, rfl⟩
  · intro hnan vi hvi hv
    obtain ⟨vision, hv1, hv2⟩ := arrayAt_visions vi hvi
    rw [← hv] at hv2
    have hl2 : arrayAt lightSources (parseIntOrZero html.lightSource)
        = some (lightSources.getD 0 []) := by
      rw [parseIntOrZero_of_nan _ hnan]
      decide
    refine ⟨vision, hv1, threw_close_valid g html vision _ hv2 hl2,
      updates_close_valid g html vision _ hv2 hl2, ?_⟩
    · intro data
      exact ⟨rfl, rfl, rfl, rfl⟩
  · intro h token
    have ht := closeToken_threw_of_out_of_range g html token h
    exact ⟨ht, updates_closeToken_of_threw g html token ht⟩

theorem unparseable_index_falls_back_witness :
    (∃ light, lightSources[3]? = some light ∧
        (close demoGame true unparseableHtml).threw = false ∧
        updates (close demoGame true unparseableHtml).effects
          = demoGame.controlled.map (fun t =>
              (t.id, immediatePatch (visions.getD 0 []) light t.data)) ∧
        ∀ data : Obj,
          Obj.get (immediatePatch (visions.getD 0 []) light data) "dimSight"
            = Obj.get data "dimSight" ∧
          Obj.get (immediatePatch (visions.getD 0 []) light data) "brightSight"
            = Obj.get data "brightSight") ∧
    (∀ token : Token, (closeToken demoGame outOfRangeHtml token).threw = true ∧
        updates (closeToken demoGame outOfRangeHtml token).effects = []) :=
  ⟨(unparseable_index_falls_back demoGame unparseableHtml).1 (by decide) 3 (by decide)
      (by decide),
   (unparseable_index_falls_back demoGame outOfRangeHtml).2.2 (by decide)⟩

/-- C8: an explicit zero or `false` in a preset overrides the token's value.
In every update of a confirmed dialog, the light preset named "None" gives
`dimLight = 0` and `brightLight = 0`, a vision preset whose `bright` is 0 gives
`brightSight = 0`, and "Bullseye Lantern" gives `lockRotation = false`,
whatever the token's data holds. -/
theorem explicit_zero_overrides (g : Game) (html : Html) (vision light : Obj)
    (hv : arrayAt visions (parseIntOrZero html.visionType) = some vision)
    (hl : arrayAt lightSources (parseIntOrZero html.lightSource) = some light) :
    updates (close g true html).effects
      = g.controlled.map (fun t => (t.id, immediatePatch vision light t.data)) ∧
    ∀ data : Obj,
      (Obj.get light "name" = JSVal.str "None" →
        Obj.get (immediatePatch vision light data) "dimLight" = JSVal.num 0 ∧
        Obj.get (immediatePatch vision light data) "brightLight" = JSVal.num 0) ∧
      (Obj.get vision "bright" = JSVal.num 0 →
        Obj.get (immediatePatch vision light data) "brightSight" = JSVal.num 0) ∧
      (Obj.get light "name" = JSVal.str "Bullseye Lantern" →
        Obj.get (immediatePatch vision light data) "lockRotation" = JSVal.bool false) := by
  refine ⟨?_, ?_⟩
  · exact updates_close_valid g html vision light hv hl
  · intro data
    have hn := lightSources_named light (arrayAt_mem _ _ _ hl)
    refine ⟨?_, ?_, ?_⟩
    · intro h
      obtain ⟨h1, h2⟩ := hn.1 h
      have e1 : Obj.get (immediatePatch vision light data) "dimLight"
          = nullish (Obj.get light "dim") (Obj.get data "dimLight") := rfl
      have e2 : Obj.get (immediatePatch vision light data) "brightLight"
          = nullish (Obj.get light "bright") (Obj.get data "brightLight") := rfl
      rw [e1, e2, h1, h2]
      exact ⟨rfl, rfl⟩
    · intro h
      have e : Obj.get (immediatePatch vision light data) "brightSight"
          = nullish (Obj.get vision "bright") (Obj.get data "brightSight") := rfl
      rw [e, h]
      rfl
    · intro h
      have e : Obj.get (immediatePatch vision light data) "lockRotation"
          = nullish (Obj.get light "lockRotation") (Obj.get data "lockRotation") := rfl
      rw [e, hn.2 h]
      rfl

theorem explicit_zero_overrides_witness :
    (Obj.get litToken.data "dimLight" = JSVal.num 40 ∧
      updates (close litGame true noneHtml).effects
        = [(2, immediatePatch (visions.getD 0 []) (lightSources.getD 1 []) litToken.data)] ∧
      Obj.get (immediatePatch (visions.getD 0 []) (lightSources.getD 1 []) litToken.data)
        "dimLight" = JSVal.num 0 ∧
      Obj.get (immediatePatch (visions.getD 0 []) (lightSources.getD 1 []) litToken.data)
        "brightLight" = JSVal.num 0) ∧
    (Obj.get demoToken.data "lockRotation" = JSVal.bool true ∧
      updates (close demoGame true bullseyeHtml).effects
        = [(1, immediatePatch (visions.getD 4 []) (lightSources.getD 7 []) demoToken.data)] ∧
      Obj.get (immediatePatch (visions.getD 4 []) (lightSources.getD 7 []) demoToken.data)
        "brightSight" = JSVal.num 0 ∧
      Obj.get (immediatePatch (visions.getD 4 []) (lightSources.getD 7 []) demoToken.data)
        "lockRotation" = JSVal.bool false) :=
  ⟨⟨by decide,
    (explicit_zero_overrides litGame noneHtml (visions.getD 0 []) (lightSources.getD 1 [])
      (by decide) (by decide)).1,
    ((explicit_zero_overrides litGame noneHtml (visions.getD 0 []) (lightSources.getD 1 [])
      (by decide) (by decide)).2 litToken.data).1 (by decide)⟩,
   ⟨by decide,
    (explicit_zero_overrides demoGame bullseyeHtml (visions.getD 4 []) (lightSources.getD 7 [])
      (by decide) (by decide)).1,
    ((explicit_zero_overrides demoGame bullseyeHtml (visions.getD 4 []) (lightSources.getD 7 [])
      (by decide) (by decide)).2 demoToken.data).2.1 (by decide),
    ((explicit_zero_overrides demoGame bullseyeHtml (visions.getD 4 []) (lightSources.getD 7 [])
      (by decide) (by decide)).2 demoToken.data).2.2 (by decide)⟩⟩

/-- C9: the generated vision catalog is exactly the nine entries "Leave
Unchanged" (null, null), "Self" (5, 0), "Devil's Sight" (0, 120) and
"Darkvision (30k feet)" with `dim = 30k`, `bright = 0` for k = 1..6, so the
darkvision radii are 30, 60, ..., 180 and none exceeds 180; "Darkvision (60
feet)" is (60, 0). In the light catalog entry 0 is all null and "Torch / Light
Cantrip" is (40, 20, 360, null). -/
theorem catalogs_as_listed :
    visions =
      [ [("name", JSVal.str "Leave Unchanged"), ("dim", JSVal.null), ("bright", JSVal.null)],
        [("name", JSVal.str "Self"), ("dim", JSVal.num 5), ("bright", JSVal.num 0)],
        [("name", JSVal.str "Devil's Sight"), ("dim", JSVal.num 0), ("bright", JSVal.num 120)],
        [("name", JSVal.str "Darkvision (30 feet)"), ("dim", JSVal.num 30),
          ("bright", JSVal.num 0)],
        [("name", JSVal.str "Darkvision (60 feet)"), ("dim", JSVal.num 60),
          ("bright", JSVal.num 0)],
        [("name", JSVal.str "Darkvision (90 feet)"), ("dim", JSVal.num 90),
          ("bright", JSVal.num 0)],
        [("name", JSVal.str "Darkvision (120 feet)"), ("dim", JSVal.num 120),
          ("bright", JSVal.num 0)],
        [("name", JSVal.str "Darkvision (150 feet)"), ("dim", JSVal.num 150),
          ("bright", JSVal.num 0)],
        [("name", JSVal.str "Darkvision (180 feet)"), ("dim", JSVal.num 180),
          ("bright", JSVal.num 0)] ] ∧
    visions.length = 9 ∧
    (∀ k : Fin 6, visions[2 + (k.val + 1)]? = some
      [ ("name", JSVal.str ("Darkvision (" ++ toString (30 * (k.val + 1)) ++ " feet)")),
        ("dim", JSVal.num ((30 * (k.val + 1) : Nat) : ℚ)),
        ("bright", JSVal.num 0) ]) ∧
    (∀ q : ℚ, JSVal.num q ∈ (visions.drop 3).map (fun v => Obj.get v "dim") → q ≤ 180) ∧
    lightSources[0]? = some
      [ ("name", JSVal.str "Leave Unchanged"), ("dim", JSVal.null), ("bright", JSVal.null),
        ("angle", JSVal.null), ("lockRotation", JSVal.null) ] ∧
    lightSources[3]? = some
      [ ("name", JSVal.str "Torch / Light Cantrip"), ("dim", JSVal.num 40),
        ("bright", JSVal.num 20), ("angle", JSVal.num 360), ("lockRotation", JSVal.null) ] ∧
    lightSources.length = 8 := by
  have hlist : (visions.drop 3).map (fun v => Obj.get v "dim")
      = [JSVal.num 30, JSVal.num 60, JSVal.num 90, JSVal.num 120, JSVal.num 150,
         JSVal.num 180] := by decide
  refine ⟨by decide, by decide, by decide, ?_, by decide, by decide, by decide⟩
  intro q hq
  rw [hlist] at hq
  simp only [List.mem_cons, JSVal.num.injEq, List.mem_singleton, List.not_mem_nil,
    or_false] at hq
  rcases hq with h | h | h | h | h | h <;> rw [h] <;> norm_num

/-- C2: with a positive duration and About Time active, a restore callback is
registered for each selected token at the duration, holding a reference to a
copy of the token's data made before the immediate update. In whatever world
it later fires, whether right after the immediate update has been carried out
or after any further updates of the tokens, it issues one update of that
token whose six fields are the values the token had before the immediate
update, and carrying that update out leaves the token with those values. -/
theorem restore_callback_restores_captured_state (g : Game) (html : Html) (vi li : Nat)
    (d : JSNum) (hvi : vi < 9) (hli : li < 8)
    (hv : parseIntOrZero html.visionType = JSNum.fin (vi : Int))
    (hl : parseIntOrZero html.lightSource = JSNum.fin (li : Int))
    (hdur : parseIntOrZero html.duration = d) (hd : d.isPositive = true)
    (hat : g.aboutTime = some true) (token : Token) (hmem : token ∈ g.controlled) :
    ∃ backup : Ref,
      (d, Callback.restore g.speaker token.id backup)
        ∈ registrations (close g true html).effects ∧
      (∀ (w : World) (extra : List Obj), w.heap = (close g true html).heap ++ extra →
        ∃ patch,
          updates (Callback.fire w (Callback.restore g.speaker token.id backup))
            = [(token.id, patch)] ∧
          ∀ f ∈ sixFields,
            Obj.get patch f = Obj.get token.data f ∧
            ∀ t ∈ (w.update token.id patch).tokens, t.id = token.id →
              Obj.get t.data f = Obj.get token.data f) ∧
      (∀ between : List (Nat × Obj),
        ∃ patch,
          updates (Callback.fire ((World.afterClose g html).applyUpdates between)
              (Callback.restore g.speaker token.id backup))
            = [(token.id, patch)] ∧
          ∀ f ∈ sixFields,
            Obj.get patch f = Obj.get token.data f ∧
            ∀ t ∈ (((World.afterClose g html).applyUpdates between).update token.id
                patch).tokens,
              t.id = token.id → Obj.get t.data f = Obj.get token.data f) := by
  obtain ⟨vision, _, hv2⟩ := arrayAt_visions vi hvi
  obtain ⟨light, _, hl2⟩ := arrayAt_lightSources li hli
  rw [← hv] at hv2
  rw [← hl] at hl2
  subst hdur
  obtain ⟨n, hn1, hn2⟩ := close_registers_restore g html vision light hv2 hl2 hd hat token hmem
  refine ⟨Ref.object n, hn1, ?_, ?_⟩
  · intro w extra hw
    have hn : w.heap[n]? = some (mergeObject [] token.data) := by
      rw [hw]
      exact hn2 extra
    obtain ⟨h1, h2⟩ := fire_restore w g.speaker token.id n token.data hn
    exact ⟨_, h1, h2⟩
  · intro between
    have hn : ((World.afterClose g html).applyUpdates between).heap[n]?
        = some (mergeObject [] token.data) := by
      rw [World.heap_applyUpdates, World.heap_afterClose]
      have h := hn2 []
      rw [List.append_nil] at h
      exact h
    obtain ⟨h1, h2⟩ := fire_restore _ g.speaker token.id n token.data hn
    exact ⟨_, h1, h2⟩

theorem restore_callback_restores_captured_state_witness :
    (Obj.get demoToken.data "dimSight" = JSVal.num 5 ∧
      Obj.get demoToken.data "dimLight" = JSVal.num 0 ∧
      (World.afterClose demoGame demoHtml).tokens.map (fun t => Obj.get t.data "dimSight")
        = [JSVal.num 60] ∧
      (World.afterClose demoGame demoHtml).tokens.map (fun t => Obj.get t.data "dimLight")
        = [JSVal.num 40] ∧
      updates (Callback.fire demoLaterWorld
          (Callback.restore demoGame.speaker demoToken.id (Ref.object 1)))
        = [(1, [ ("vision", JSVal.bool true), ("dimSight", JSVal.num 5),
                 ("brightSight", JSVal.num 0), ("dimLight", JSVal.num 0),
                 ("brightLight", JSVal.num 0), ("lightAngle", JSVal.num 360),
                 ("lockRotation", JSVal.bool true) ])]) ∧
    ∃ backup : Ref,
      (JSNum.fin 40, Callback.restore demoGame.speaker demoToken.id backup)
        ∈ registrations (close demoGame true demoHtml).effects ∧
      (∀ (w : World) (extra : List Obj), w.heap = (close demoGame true demoHtml).heap ++ extra →
        ∃ patch,
          updates (Callback.fire w (Callback.restore demoGame.speaker demoToken.id backup))
            = [(demoToken.id, patch)] ∧
          ∀ f ∈ sixFields,
            Obj.get patch f = Obj.get demoToken.data f ∧
            ∀ t ∈ (w.update demoToken.id patch).tokens, t.id = demoToken.id →
              Obj.get t.data f = Obj.get demoToken.data f) ∧
      (∀ between : List (Nat × Obj),
        ∃ patch,
          updates (Callback.fire ((World.afterClose demoGame demoHtml).applyUpdates between)
              (Callback.restore demoGame.speaker demoToken.id backup))
            = [(demoToken.id, patch)] ∧
          ∀ f ∈ sixFields,
            Obj.get patch f = Obj.get demoToken.data f ∧
            ∀ t ∈ (((World.afterClose demoGame demoHtml).applyUpdates between).update
                demoToken.id patch).tokens,
              t.id = demoToken.id → Obj.get t.data f = Obj.get demoToken.data f) :=
  ⟨by decide,
   restore_callback_restores_captured_state demoGame demoHtml 4 3 (JSNum.fin 40) (by decide)
    (by decide) (by decide) (by decide) (by decide) (by decide) rfl demoToken (by decide)⟩

set_option maxRecDepth 100000 in
set_option exponentiation.threshold 2048 in
/-- C3, as stated, fails. The delays are doubles: for the duration
3002399751580333 the product `3 * d` is not a double and rounds up, so the
warning is registered at 2251799813685250 where `floor(3*d/4)` is
2251799813685249; for a 1 followed by 308 zeros the product overflows and the
warning delay is infinite, above the finite restore delay. And with a vision
index past the catalog, two selected tokens get two registrations, not four:
the first iteration throws after scheduling. -/
theorem warning_delay_not_always_floor :
    (parseIntOrZero largeDurationHtml.duration = JSNum.fin 3002399751580333 ∧
      registrations (close demoGame true largeDurationHtml).effects
        = [ (JSNum.fin 2251799813685250,
              Callback.warn (JSVal.str "speaker") (Ref.object 0)),
            (JSNum.fin 3002399751580333,
              Callback.restore (JSVal.str "speaker") 1 (Ref.object 1)) ] ∧
      (3 * 3002399751580333 : Int) / 4 = 2251799813685249) ∧
    ((parseIntOrZero hugeDurationHtml.duration).isPositive = true ∧
      parseIntOrZero hugeDurationHtml.duration ≠ JSNum.posInf ∧
      warnDelay (parseIntOrZero hugeDurationHtml.duration) = JSNum.posInf) ∧
    (pairGame.controlled.length = 2 ∧
      (parseIntOrZero outOfRangeTimedHtml.duration).isPositive = true ∧
      (registrations (close pairGame true outOfRangeTimedHtml).effects).length = 2) := by
  refine ⟨by decide, ?_, by decide⟩
  decide

/-- C3, amended: for an integer duration `d > 0` with `3*d` below `2^53`, where
the double arithmetic is exact, and About Time active, the loop body registers
exactly two callbacks for its token, the warning after `floor(3*d/4)` minutes
and then the restore after `d` minutes, each holding its own fresh copy; with
both preset indices inside their catalogs a confirmed dialog registers these
two for every selected token. The warning delay is strictly less than `d`;
`d = 100` gives 75 and `d = 40` gives 30. -/
theorem two_callbacks_registered (g : Game) (html : Html) (d : Int)
    (hdur : parseIntOrZero html.duration = JSNum.fin d) (hd : 0 < d)
    (hb : 3 * d < 2 ^ 53) (hat : g.aboutTime = some true) :
    (∀ token : Token, registrations (closeToken g html token).effects
        = [ (JSNum.fin ((3 * d) / 4), Callback.warn g.speaker (Ref.object g.heap.length)),
            (JSNum.fin d,
              Callback.restore g.speaker token.id (Ref.object (g.heap.length + 1))) ]) ∧
    (∀ vi li : Nat, vi < 9 → li < 8 →
        parseIntOrZero html.visionType = JSNum.fin (vi : Int) →
        parseIntOrZero html.lightSource = JSNum.fin (li : Int) →
        registrations (close g true html).effects
          = expectedRegistrations g.speaker (JSNum.fin d) g.heap.length g.controlled ∧
        (registrations (close g true html).effects).length = 2 * g.controlled.length) ∧
    warnDelay (JSNum.fin d) = JSNum.fin ((3 * d) / 4) ∧
    (3 * d) / 4 = Int.floor ((3 * (d : ℚ)) / 4) ∧
    (3 * d) / 4 < d ∧
    warnDelay (JSNum.fin 100) = JSNum.fin 75 ∧ warnDelay (JSNum.fin 40) = JSNum.fin 30 := by
  have hpos : (JSNum.fin d).isPositive = true := by simp [JSNum.isPositive, hd]
  have hw := warnDelay_exact d hd hb
  refine ⟨?_, ?_, hw, ?_, by omega, by decide, by decide⟩
  · intro token
    rw [registrations_closeToken, hdur, schedule_active g token _ hpos hat, hw]
    rfl
  · intro vi li hvi hli hv hl
    obtain ⟨vision, _, hv2⟩ := arrayAt_visions vi hvi
    obtain ⟨light, _, hl2⟩ := arrayAt_lightSources li hli
    rw [← hv] at hv2
    rw [← hl] at hl2
    have hpos' : (parseIntOrZero html.duration).isPositive = true := by rw [hdur]; exact hpos
    obtain ⟨h1, _⟩ := closeLoop_active html vision light hv2 hl2 hpos' g.controlled g hat
    rw [hdur] at h1
    simp only [close, if_true]
    rw [h1]
    exact ⟨rfl, expectedRegistrations_length _ _ _ _⟩
  · have h := floorQuarter_eq_floor (3 * d)
    push_cast at h
    exact h

theorem two_callbacks_registered_witness :
    (∀ token : Token, registrations (closeToken demoGame demoHtml token).effects
        = [ (JSNum.fin ((3 * 40) / 4),
              Callback.warn demoGame.speaker (Ref.object demoGame.heap.length)),
            (JSNum.fin 40,
              Callback.restore demoGame.speaker token.id
                (Ref.object (demoGame.heap.length + 1))) ]) ∧
    (∀ vi li : Nat, vi < 9 → li < 8 →
        parseIntOrZero demoHtml.visionType = JSNum.fin (vi : Int) →
        parseIntOrZero demoHtml.lightSource = JSNum.fin (li : Int) →
        registrations (close demoGame true demoHtml).effects
          = expectedRegistrations demoGame.speaker (JSNum.fin 40) demoGame.heap.length
              demoGame.controlled ∧
        (registrations (close demoGame true demoHtml).effects).length
          = 2 * demoGame.controlled.length) ∧
    warnDelay (JSNum.fin 40) = JSNum.fin ((3 * 40) / 4) ∧
    (3 * 40) / 4 = Int.floor ((3 * ((40 : Int) : ℚ)) / 4) ∧
    (3 * 40) / 4 < (40 : Int) ∧
    warnDelay (JSNum.fin 100) = JSNum.fin 75 ∧ warnDelay (JSNum.fin 40) = JSNum.fin 30 :=
  two_callbacks_registered demoGame demoHtml 40 (by decide) (by decide) (by decide) rfl

/-- C10: every update the `close` handler issues carries `vision: true`, and
with valid indices it issues one per selected token. The restore callback,
whenever it fires, issues exactly one update of its token, and that update
carries `vision: true` whatever the captured copy holds; for the callback a
confirmed dialog registers, the copy holds the token's flag from before the
immediate update, so the flag is not returned to that value. A token whose
vision flag was false reads `vision = true` after the immediate update even
with "Leave Unchanged" chosen twice, and again after the restore update. -/
theorem updates_always_enable_vision :
    (∀ (g : Game) (applyChanges : Bool) (html : Html),
      ∀ p ∈ updates (close g applyChanges html).effects,
        Obj.get p.2 "vision" = JSVal.bool true) ∧
    (∀ (g : Game) (html : Html) (vision light : Obj),
      arrayAt visions (parseIntOrZero html.visionType) = some vision →
      arrayAt lightSources (parseIntOrZero html.lightSource) = some light →
      updates (close g true html).effects
        = g.controlled.map (fun t => (t.id, immediatePatch vision light t.data)) ∧
      ∀ data : Obj, Obj.get (immediatePatch vision light data) "vision" = JSVal.bool true) ∧
    (∀ (w : World) (speaker : JSVal) (tokenId : Nat) (backup : Ref),
      updates (Callback.fire w (Callback.restore speaker tokenId backup))
        = [(tokenId, restorePatch (w.read backup))] ∧
      Obj.get (restorePatch (w.read backup)) "vision" = JSVal.bool true ∧
      ∀ t ∈ (w.update tokenId (restorePatch (w.read backup))).tokens, t.id = tokenId →
        Obj.get t.data "vision" = JSVal.bool true) ∧
    (∀ (g : Game) (html : Html) (vi li : Nat), vi < 9 → li < 8 →
      parseIntOrZero html.visionType = JSNum.fin (vi : Int) →
      parseIntOrZero html.lightSource = JSNum.fin (li : Int) →
      (parseIntOrZero html.duration).isPositive = true →
      g.aboutTime = some true →
      ∀ token ∈ g.controlled, ∃ backup : Ref,
        (parseIntOrZero html.duration, Callback.restore g.speaker token.id backup)
          ∈ registrations (close g true html).effects ∧
        ∀ (w : World) (extra : List Obj), w.heap = (close g true html).heap ++ extra →
          Obj.get (w.read backup) "vision" = Obj.get token.data "vision" ∧
          updates (Callback.fire w (Callback.restore g.speaker token.id backup))
            = [(token.id, restorePatch (w.read backup))] ∧
          Obj.get (restorePatch (w.read backup)) "vision" = JSVal.bool true) ∧
    (∀ (vision light : Obj) (token : Token),
      Obj.get (token.applyUpdate (immediatePatch vision light token.data)).data "vision"
        = JSVal.bool true) ∧
    (Obj.get demoToken.data "vision" = JSVal.bool false ∧
      updates (close demoGame true unchangedHtml).effects
        = [(1, immediatePatch (visions.getD 0 []) (lightSources.getD 0 []) demoToken.data)] ∧
      (World.afterClose demoGame unchangedHtml).tokens.map (fun t => Obj.get t.data "vision")
        = [JSVal.bool true] ∧
      Obj.get (demoLaterWorld.read (Ref.object 1)) "vision" = JSVal.bool false ∧
      updates (Callback.fire demoLaterWorld
          (Callback.restore demoGame.speaker demoToken.id (Ref.object 1)))
        = [(1, restorePatch (demoLaterWorld.read (Ref.object 1)))] ∧
      (demoLaterWorld.update 1 (restorePatch (demoLaterWorld.read (Ref.object 1)))).tokens.map
          (fun t => Obj.get t.data "vision")
        = [JSVal.bool true]) := by
  refine ⟨?_, ?_, ?_, ?_, ?_, by decide⟩
  · intro g applyChanges html p hp
    cases applyChanges with
    | false => simp [close, updates] at hp
    | true =>
      simp only [close, if_true] at hp
      exact updates_closeLoop_vision html g.controlled g p hp
  · intro g html vision light hv hl
    exact ⟨updates_close_valid g html vision light hv hl, fun _ => rfl⟩
  · intro w speaker tokenId backup
    refine ⟨rfl, rfl, ?_⟩
    intro t ht hid
    have hk : "vision" ∈ (restorePatch (w.read backup)).map Prod.fst := by
      simp [restorePatch]
    rw [World.get_update w tokenId _ "vision" hk t ht hid]
    rfl
  · intro g html vi li hvi hli hv hl hd hat token hmem
    obtain ⟨vision, _, hv2⟩ := arrayAt_visions vi hvi
    obtain ⟨light, _, hl2⟩ := arrayAt_lightSources li hli
    rw [← hv] at hv2
    rw [← hl] at hl2
    obtain ⟨n, hn1, hn2⟩ := close_registers_restore g html vision light hv2 hl2 hd hat token
      hmem
    refine ⟨Ref.object n, hn1, ?_⟩
    intro w extra hw
    have hr : w.read (Ref.object n) = mergeObject [] token.data := by
      have hn := hn2 extra
      rw [← hw] at hn
      simp [World.read, List.getD, hn]
    refine ⟨?_, rfl, rfl⟩
    rw [hr, get_mergeObject_nil]
  · intro vision light token
    simp only [Token.applyUpdate]
    rw [get_mergeObject]
    have hk : "vision" ∈ (immediatePatch vision light token.data).map Prod.fst := by
      simp [immediatePatch]
    rw [if_pos hk]
    rfl

theorem updates_always_enable_vision_witness :
    ∃ backup : Ref,
      (parseIntOrZero demoHtml.duration,
          Callback.restore demoGame.speaker demoToken.id backup)
        ∈ registrations (close demoGame true demoHtml).effects ∧
      ∀ (w : World) (extra : List Obj), w.heap = (close demoGame true demoHtml).heap ++ extra →
        Obj.get (w.read backup) "vision" = Obj.get demoToken.data "vision" ∧
        updates (Callback.fire w (Callback.restore demoGame.speaker demoToken.id backup))
          = [(demoToken.id, restorePatch (w.read backup))] ∧
        Obj.get (restorePatch (w.read backup)) "vision" = JSVal.bool true :=
  updates_always_enable_vision.2.2.2.1 demoGame demoHtml 4 3 (by decide) (by decide)
    (by decide) (by decide) (by decide) rfl demoToken (by decide)

end TokenVision
